import Mathlib

/-!
lilium-job: the example server `test-server/main.go`

The program wires an application framework (package `lilium`) to a job module
(package `liliumjob`), registers one task and starts the router.  Neither
package is part of the source file, so every value they produce is a field of
`Externals`: the theorems below hold for every choice of those fields.

`main` is embedded as a function from the externals to the run it performs: the
ordered list of calls it makes and the way it ends.
-/

namespace LiliumJob

/-- Carrier types of the values that cross the boundary with the two imported
packages.  `Error` holds the non-nil values of the Go interface `error`; a
possibly nil `error` is an `Option Error`. -/
structure Sig where
  Config : Type
  GoContext : Type
  App : Type
  AppContext : Type
  Router : Type
  JobsConfig : Type
  Module : Type
  Logger : Type
  Error : Type

/-- Modelled from the spec: the `ScheduleTrigger` of the data model, a tagged
variant over Immediate, Interval with a period and Cron with an expression.  The
invariant `period > 0` for Interval is carried by the value.  No value of this
type occurs in `main.go`; the type of the scheduling core is missing from the
sources. -/
inductive ScheduleTrigger where
  | Immediate
  | Interval (period : Nat) (pos : 0 < period)
  | Cron (expression : String)

/-- A call made by a task handler while it runs.  The handler of `main.go`
makes one kind of call, `Info` on a logger. -/
inductive HandlerCall (S : Sig) where
  | Info (logger : S.Logger) (msg : String)

/-- How a handler invocation ends: it returns its `error` result (`none` is
`nil`), or it reaches the method call on a nil logger, whose behaviour the
source file does not determine. -/
inductive HandlerResult (S : Sig) where
  | returned (err : Option S.Error)
  | nilLogger

/-- One invocation of a handler: the calls it made, in order, and how it
ended. -/
structure HandlerRun (S : Sig) where
  calls : List (HandlerCall S)
  result : HandlerResult S

/-- The Go type `func(ctx *lilium.AppContext) error`. -/
abbrev Handler (S : Sig) := S.AppContext → HandlerRun S

/-- Values the program passes around: the arguments and receivers of its
calls.  `schedule` is the one kind that never occurs in `main.go`; it is there
so that a call carrying a schedule trigger can be told from one that does
not. -/
inductive Arg (S : Sig) where
  | str (s : String)
  | config (c : S.Config)
  | goContext (c : S.GoContext)
  | app (a : S.App)
  | appContext (c : S.AppContext)
  | router (r : S.Router)
  | jobsConfig (c : S.JobsConfig)
  | module (m : S.Module)
  | handler (h : Handler S)
  | schedule (t : ScheduleTrigger)

/-- The functions and methods `main` calls, by their qualified Go names. -/
inductive Callee where
  | lilium_LoadConfig
  | lilium_New
  | lilium_NewRouter
  | liliumjob_LoadLiliumJobsConfig
  | liliumjob_New
  | RegisterTask
  | UseModule
  | Start
  deriving DecidableEq, Repr

/-- One call of the trace: the callee, the receiver of a method call, and the
argument list exactly as written at the call site. -/
structure Call (S : Sig) where
  callee : Callee
  recv : Option (Arg S)
  args : List (Arg S)

/-- What the imported packages return.  Each function is called at most once by
`main`, so a function of the arguments covers every behaviour of a stateful
implementation.  `Background` is the value of `context.Background()` and
`Context` the field `app.Context`; both are read as argument expressions.
`GetLogger` yields `none` when the context has no logger (nil).  `UseModule`
and `Start` return nothing that `main` reads and so have no field. -/
structure Externals (S : Sig) where
  LoadConfig : String → S.Config
  Background : S.GoContext
  New : S.Config → S.GoContext → S.App
  Context : S.App → S.AppContext
  NewRouter : S.AppContext → S.Router
  LoadLiliumJobsConfig : String → S.JobsConfig × Option S.Error
  JobNew : S.JobsConfig → S.Module
  RegisterTask : S.Module → String → Handler S → Option S.Error
  GetLogger : S.AppContext → Option S.Logger

/-- The closure of lines 22-25,
`func(ctx *lilium.AppContext) error { ctx.GetLogger().Info("Hello from job"); return nil }`. -/
def testJob {S : Sig} (E : Externals S) : Handler S := fun ctx =>
  match E.GetLogger ctx with
  | some logger => ⟨[HandlerCall.Info logger "Hello from job"], HandlerResult.returned none⟩
  | none => ⟨[], HandlerResult.nilLogger⟩

/-- How a run of `main` ends: the body runs to its last statement, or
`panic(err)` of line 17 is executed with the value `err`. -/
inductive Outcome (S : Sig) where
  | completed
  | panics (value : S.Error)

/-- A run of `main`: its calls in program order and its outcome. -/
structure Run (S : Sig) where
  trace : List (Call S)
  outcome : Outcome S

/-- The calls of lines 11-15, made in every run. -/
def prologue {S : Sig} (E : Externals S) : List (Call S) :=
  let cfg := E.LoadConfig "test.yaml"
  let app := E.New cfg E.Background
  [ ⟨Callee.lilium_LoadConfig, none, [Arg.str "test.yaml"]⟩,
    ⟨Callee.lilium_New, none, [Arg.config cfg, Arg.goContext E.Background]⟩,
    ⟨Callee.lilium_NewRouter, none, [Arg.appContext (E.Context app)]⟩,
    ⟨Callee.liliumjob_LoadLiliumJobsConfig, none, [Arg.str "test.yaml"]⟩ ]

/-- The function `main` of `test-server/main.go`, statement by statement. -/
def main {S : Sig} (E : Externals S) : Run S :=
  let cfg := E.LoadConfig "test.yaml"
  let app := E.New cfg E.Background
  let router := E.NewRouter (E.Context app)
  let loaded := E.LoadLiliumJobsConfig "test.yaml"
  let module_cfg := loaded.1
  match loaded.2 with
  | some err => ⟨prologue E, Outcome.panics err⟩
  | none =>
    let module := E.JobNew module_cfg
    let _registered := E.RegisterTask module "test-job" (testJob E)
    ⟨prologue E ++
      [ ⟨Callee.liliumjob_New, none, [Arg.jobsConfig module_cfg]⟩,
        ⟨Callee.RegisterTask, some (Arg.module module),
          [Arg.str "test-job", Arg.handler (testJob E)]⟩,
        ⟨Callee.UseModule, some (Arg.app app), [Arg.module module]⟩,
        ⟨Callee.Start, some (Arg.app app), [Arg.router router]⟩ ],
      Outcome.completed⟩

/-- Concrete carrier types for evaluating `main`: every value is a string or a
number. -/
@[reducible] def demoSig : Sig where
  Config := String
  GoContext := Unit
  App := String
  AppContext := String
  Router := String
  JobsConfig := String
  Module := String
  Logger := Nat
  Error := String

/-- Externals under which the job configuration loads: `LoadLiliumJobsConfig`
returns a nil error, `RegisterTask` returns an error, and the context
"app.ctx" has logger 7. -/
def demoLoads : Externals demoSig where
  LoadConfig := fun (path : String) => "cfg:" ++ path
  Background := ()
  New := fun (cfg : String) _ => "app(" ++ cfg ++ ")"
  Context := fun _ => "app.ctx"
  NewRouter := fun (ctx : String) => "router(" ++ ctx ++ ")"
  LoadLiliumJobsConfig := fun (path : String) => ("jobs:" ++ path, none)
  JobNew := fun (cfg : String) => "module(" ++ cfg ++ ")"
  RegisterTask := fun _ _ _ => some "DuplicateTask"
  GetLogger := fun (ctx : String) => if ctx = "app.ctx" then some (7 : Nat) else none

/-- Externals under which the job configuration fails to load with the error
"no such file". -/
def demoFails : Externals demoSig :=
  { demoLoads with LoadLiliumJobsConfig := fun _ => ("", some "no such file") }

end LiliumJob

/-!
The scheduling core

The registry, executor and scheduler that `liliumjob.New` and `RegisterTask`
stand for are not among the source files.  They are modelled here from their
written contract, over a discrete clock whose unit is one scheduler tick.
-/

namespace LiliumJob.Core

/-- Modelled from the spec: how a handler invocation ends; the handler body is
missing from the sources.  A handler returns success, returns an explicit
error, or raises a runtime fault. -/
inductive HandlerEnd where
  | ok
  | error (reason : String)
  | fault (reason : String)
  deriving DecidableEq, Repr

/-- Modelled from the spec: the execution context handed to a handler; the
host context type is missing from the sources.  It is an opaque capability
bundle, of which the model keeps the time of the invocation. -/
structure ExecContext where
  startedAt : Nat
  deriving DecidableEq, Repr

/-- Modelled from the spec: what one handler invocation does, namely how many
ticks it runs and how it ends; the handler body is missing from the
sources. -/
structure Work where
  duration : Nat
  ending : HandlerEnd
  deriving DecidableEq, Repr

/-- Modelled from the spec: the handler of a TaskDefinition, a function taking
an execution context; the handler type is missing from the sources. -/
abbrev JobHandler := ExecContext → Work

/-- Modelled from the spec: the TaskDefinition of the data model, with a name,
a schedule and a handler; the type is missing from the sources. -/
structure TaskDefinition where
  name : String
  schedule : ScheduleTrigger
  handler : JobHandler

/-- Modelled from the spec: the registration errors of the error taxonomy; the
error type is missing from the sources. -/
inductive RegistryError where
  | DuplicateTask
  | RegistryClosed
  deriving DecidableEq, Repr

/-- Modelled from the spec: the Registry, holding the task definitions in
registration order and whether it has been closed by the start of the
scheduler; the type is missing from the sources. -/
structure Registry where
  tasks : List TaskDefinition
  closed : Bool

/-- Modelled from the spec: the registry constructed empty at startup; its
constructor is missing from the sources. -/
def Registry.empty : Registry := ⟨[], false⟩

/-- Modelled from the spec: `Lookup(name)` returns the TaskDefinition or
NotFound (`none`); the function is missing from the sources. -/
def Lookup (r : Registry) (name : String) : Option TaskDefinition :=
  r.tasks.find? (fun d => d.name == name)

/-- Modelled from the spec: `Register(name, schedule, handler)`, missing from
the sources.  Late registration fails with RegistryClosed; otherwise it fails
with DuplicateTask if the name is already present, otherwise stores the
TaskDefinition and returns success.  A failed call aborts that registration
only: the registry is returned as it was. -/
def Register (r : Registry) (name : String) (schedule : ScheduleTrigger)
    (handler : JobHandler) : Registry × Except RegistryError Unit :=
  if r.closed then (r, Except.error RegistryError.RegistryClosed)
  else if (Lookup r name).isSome then (r, Except.error RegistryError.DuplicateTask)
  else ({ r with tasks := r.tasks ++ [⟨name, schedule, handler⟩] }, Except.ok ())

/-- Modelled from the spec: a sequence of registrations made one after the
other, each on the registry the previous one left; the caller loop is missing
from the sources. -/
def registerAll (r : Registry) : List TaskDefinition → Registry
  | [] => r
  | d :: rest => registerAll (Register r d.name d.schedule d.handler).1 rest

/-- Modelled from the spec: the outcome of an ExecutionRecord; the type is
missing from the sources. -/
inductive ExecOutcome where
  | Success
  | Failed (reason : String)
  | Timeout
  | Panicked (reason : String)
  deriving DecidableEq, Repr

/-- Modelled from the spec: the ExecutionRecord of the data model; the type is
missing from the sources.  A record is created at invocation start and
finalized at completion: `endTime` and `outcome` are `none` while the
invocation runs. -/
structure ExecutionRecord where
  taskName : String
  startTime : Nat
  endTime : Option Nat
  outcome : Option ExecOutcome
  deriving DecidableEq, Repr

/-- Modelled from the spec: an invocation in flight, the unit of work the
Executor runs for one dispatch; the type is missing from the sources.  It
executes from `startTime` until `finishTime`. -/
structure Invocation where
  taskName : String
  startTime : Nat
  finishTime : Nat
  outcome : ExecOutcome
  deriving DecidableEq, Repr

/-- Modelled from the spec: the Executor's conversion of the way a handler
ends into an outcome; the function is missing from the sources.  A runtime
fault becomes Panicked, an explicit error becomes Failed. -/
def outcomeOf : HandlerEnd → ExecOutcome
  | HandlerEnd.ok => ExecOutcome.Success
  | HandlerEnd.error reason => ExecOutcome.Failed reason
  | HandlerEnd.fault reason => ExecOutcome.Panicked reason

/-- Modelled from the spec: `Invoke(task)` of the Executor, missing from the
sources.  It runs the handler with an execution context; a TaskDefinition
carries no deadline, so the invocation is unbounded and never times out. -/
def Invoke (task : TaskDefinition) (now : Nat) : Invocation :=
  let work := task.handler ⟨now⟩
  ⟨task.name, now, now + work.duration, outcomeOf work.ending⟩

/-- Modelled from the spec: the ExecutionRecord the Executor creates at
invocation start, with no end time and no outcome yet; the function is missing
from the sources. -/
def created (i : Invocation) : ExecutionRecord :=
  ⟨i.taskName, i.startTime, none, none⟩

/-- Modelled from the spec: the ExecutionRecord of an invocation as finalized
at completion, with its end time and its outcome; the function is missing from
the sources. -/
def finalize (i : Invocation) : ExecutionRecord :=
  ⟨i.taskName, i.startTime, some i.finishTime, some i.outcome⟩

/-- Modelled from the spec: whether a record is the record of an invocation,
that is it carries its task name and its start time; the test is missing from
the sources. -/
def sameInvocation (r : ExecutionRecord) (i : Invocation) : Bool :=
  r.taskName == i.taskName && r.startTime == i.startTime

/-- Modelled from the spec: the finalization of the records of the log at
completion, missing from the sources.  A record of an invocation that has
finished becomes its finalized record; every other record stays as it is. -/
def settle (done : List Invocation) (r : ExecutionRecord) : ExecutionRecord :=
  match done.find? (fun i => sameInvocation r i) with
  | some i => finalize i
  | none => r

/-- Modelled from the spec: the bound on the size of the log, missing from the
sources.  The oldest records are evicted first: the log keeps its last
`capacity` records. -/
def evict (capacity : Nat) (log : List ExecutionRecord) : List ExecutionRecord :=
  log.drop (log.length - capacity)

/-- Modelled from the spec: the lifecycle phases of the SchedulerState; the
type is missing from the sources. -/
inductive Phase where
  | Constructed
  | Running
  | Draining
  | Stopped
  deriving DecidableEq, Repr

/-- Modelled from the spec: one row of the fire-time table, a TaskDefinition
with its next fire time (`none` once the task has no further fire time); the
type is missing from the sources. -/
structure Slot where
  task : TaskDefinition
  nextFire : Option Nat

/-- Modelled from the spec: the SchedulerState, missing from the sources: the
phase, the clock, the fire-time table in registration order, the invocations
in flight, the log of records (oldest first) with the bound on its size, and
the evaluator of cron expressions (next matching time strictly after the given
one). -/
structure Scheduler where
  phase : Phase
  now : Nat
  table : List Slot
  inflight : List Invocation
  log : List ExecutionRecord
  capacity : Nat
  cronNext : String → Nat → Option Nat

/-- Modelled from the spec: the recomputation of the next fire time at a tick,
missing from the sources.  Interval: now + period; Cron: next matching time
strictly after now; Immediate: fires once then is removed. -/
def recompute (cronNext : String → Nat → Option Nat) (now : Nat) :
    ScheduleTrigger → Option Nat
  | ScheduleTrigger.Immediate => none
  | ScheduleTrigger.Interval period _ => some (now + period)
  | ScheduleTrigger.Cron expression => cronNext expression now

/-- Modelled from the spec: whether a task is due, that is its next fire time
is at most now; the test is missing from the sources. -/
def isDue (now : Nat) (sl : Slot) : Bool :=
  match sl.nextFire with
  | some t => decide (t ≤ now)
  | none => false

/-- Modelled from the spec: whether a task is already executing, that is one
of the invocations in flight is for its name; the test is missing from the
sources. -/
def executing (running : List Invocation) (name : String) : Bool :=
  running.any (fun i => i.taskName == name)

/-- Modelled from the spec: the update of one row of the fire-time table at a
tick, missing from the sources.  A due task has its next fire time recomputed
from its schedule at the time of the tick, whether it was dispatched or its
tick was dropped. -/
def advance (cronNext : String → Nat → Option Nat) (now : Nat) (sl : Slot) : Slot :=
  if isDue now sl then { sl with nextFire := recompute cronNext now sl.task.schedule } else sl

/-- Modelled from the spec: the dispatch of a tick, missing from the sources.
The due tasks are handed to the Executor in registration order, except those
already executing, whose tick is dropped. -/
def dispatch (now : Nat) (running : List Invocation) (table : List Slot) : List Invocation :=
  (table.filter (fun sl => isDue now sl && !executing running sl.task.name)).map
    (fun sl => Invoke sl.task now)

/-- Modelled from the spec: one tick of the scheduling loop, missing from the
sources.  The clock advances by one; the records of the invocations that have
finished are finalized; the due tasks are dispatched, a record being created
in the log for each invocation started; the oldest records beyond the bound of
the log are evicted; and the fire-time table is recomputed.  The loop ticks in
the Running phase only. -/
def tick (s : Scheduler) : Scheduler :=
  match s.phase with
  | Phase.Running =>
    let now := s.now + 1
    let done := s.inflight.filter (fun i => decide (i.finishTime ≤ now))
    let running := s.inflight.filter (fun i => !decide (i.finishTime ≤ now))
    { s with
      now := now
      table := s.table.map (advance s.cronNext now)
      inflight := running ++ dispatch now running s.table
      log := evict s.capacity
        (s.log.map (settle done) ++ (dispatch now running s.table).map created) }
  | _ => s

/-- Modelled from the spec: `n` consecutive ticks of the scheduling loop; the
loop is missing from the sources. -/
def ticks : Nat → Scheduler → Scheduler
  | 0, s => s
  | n + 1, s => ticks n (tick s)

/-- Modelled from the spec: the next fire time the table holds for a task
name; the accessor is missing from the sources. -/
def nextFireOf (s : Scheduler) (name : String) : Option Nat :=
  (s.table.find? (fun sl => sl.task.name == name)).bind (fun sl => sl.nextFire)

/-- Three registration requests, two of them under the name "report". -/
def demoRequests : List TaskDefinition :=
  [ ⟨"report", ScheduleTrigger.Immediate, fun _ => ⟨1, HandlerEnd.ok⟩⟩,
    ⟨"cleanup", ScheduleTrigger.Interval 5 (by decide), fun _ => ⟨2, HandlerEnd.ok⟩⟩,
    ⟨"report", ScheduleTrigger.Cron "0 * * * *", fun _ => ⟨3, HandlerEnd.error "late"⟩⟩ ]

/-- An Interval(5) task whose invocation started at time 5 runs 7 ticks and
whose other invocations run 1 tick. -/
def slowTask : TaskDefinition :=
  ⟨"slow", ScheduleTrigger.Interval 5 (by decide),
    fun ctx => ⟨if ctx.startedAt = 5 then 7 else 1, HandlerEnd.ok⟩⟩

/-- An Interval(2) task whose handler raises a runtime fault after 1 tick. -/
def boomTask : TaskDefinition :=
  ⟨"boom", ScheduleTrigger.Interval 2 (by decide), fun _ => ⟨1, HandlerEnd.fault "nil map"⟩⟩

/-- A running scheduler at time 0 with the tasks `slowTask`, first due at 5,
and `boomTask`, first due at 2, nothing in flight and an empty log of
capacity 16. -/
def demoScheduler : Scheduler :=
  { phase := Phase.Running
    now := 0
    table := [⟨slowTask, some 5⟩, ⟨boomTask, some 2⟩]
    inflight := []
    log := []
    capacity := 16
    cronNext := fun _ _ => none }

/-- The scheduler `demoScheduler` one tick later: time 1, `boomTask` due at
the next tick, nothing in flight and an empty log. -/
def readyScheduler : Scheduler :=
  { phase := Phase.Running
    now := 1
    table := [⟨slowTask, some 5⟩, ⟨boomTask, some 2⟩]
    inflight := []
    log := []
    capacity := 16
    cronNext := fun _ _ => none }

/-- The scheduler `demoScheduler` nine ticks later: time 9, `slowTask` due at
10 while its invocation started at 5 runs until 12, `boomTask` due at 10. -/
def busyScheduler : Scheduler :=
  { phase := Phase.Running
    now := 9
    table := [⟨slowTask, some 10⟩, ⟨boomTask, some 10⟩]
    inflight := [⟨"slow", 5, 12, ExecOutcome.Success⟩]
    log := [ ⟨"boom", 2, some 3, some (ExecOutcome.Panicked "nil map")⟩,
             ⟨"boom", 4, some 5, some (ExecOutcome.Panicked "nil map")⟩,
             ⟨"slow", 5, none, none⟩,
             ⟨"boom", 6, some 7, some (ExecOutcome.Panicked "nil map")⟩,
             ⟨"boom", 8, some 9, some (ExecOutcome.Panicked "nil map")⟩ ]
    capacity := 16
    cronNext := fun _ _ => none }

/-- An Interval(10) task whose handler raises a runtime fault after 3
ticks. -/
def lateBoomTask : TaskDefinition :=
  ⟨"boom", ScheduleTrigger.Interval 10 (by decide), fun _ => ⟨3, HandlerEnd.fault "nil map"⟩⟩

/-- An Interval(10) task whose handler returns after 1 tick. -/
def quickTask : TaskDefinition :=
  ⟨"quick", ScheduleTrigger.Interval 10 (by decide), fun _ => ⟨1, HandlerEnd.ok⟩⟩

/-- A running scheduler at time 0 whose log keeps one record: `lateBoomTask`
first due at 1, `quickTask` first due at 2, nothing in flight, empty log. -/
def tightStart : Scheduler :=
  { phase := Phase.Running
    now := 0
    table := [⟨lateBoomTask, some 1⟩, ⟨quickTask, some 2⟩]
    inflight := []
    log := []
    capacity := 1
    cronNext := fun _ _ => none }

end LiliumJob.Core

/-!
Theorems about `main`
-/

namespace LiliumJob

/-- The run of `main` when the job configuration loads. -/
theorem main_of_loaded {S : Sig} (E : Externals S)
    (h : (E.LoadLiliumJobsConfig "test.yaml").2 = none) :
    main E = ⟨prologue E ++
      [ ⟨Callee.liliumjob_New, none, [Arg.jobsConfig (E.LoadLiliumJobsConfig "test.yaml").1]⟩,
        ⟨Callee.RegisterTask, some (Arg.module (E.JobNew (E.LoadLiliumJobsConfig "test.yaml").1)),
          [Arg.str "test-job", Arg.handler (testJob E)]⟩,
        ⟨Callee.UseModule, some (Arg.app (E.New (E.LoadConfig "test.yaml") E.Background)),
          [Arg.module (E.JobNew (E.LoadLiliumJobsConfig "test.yaml").1)]⟩,
        ⟨Callee.Start, some (Arg.app (E.New (E.LoadConfig "test.yaml") E.Background)),
          [Arg.router (E.NewRouter (E.Context (E.New (E.LoadConfig "test.yaml") E.Background)))]⟩ ],
      Outcome.completed⟩ := by
  unfold main
  simp only [h]

/-- The run of `main` when the job configuration fails to load. -/
theorem main_of_failed {S : Sig} (E : Externals S) (err : S.Error)
    (h : (E.LoadLiliumJobsConfig "test.yaml").2 = some err) :
    main E = ⟨prologue E, Outcome.panics err⟩ := by
  unfold main
  simp only [h]

/-- The callees of a run, in order: the four of the prologue, and the four
that follow when the job configuration loads. -/
theorem callees_of_main {S : Sig} (E : Externals S) :
    (main E).trace.map (fun c => c.callee) =
      match (E.LoadLiliumJobsConfig "test.yaml").2 with
      | some _ => [Callee.lilium_LoadConfig, Callee.lilium_New, Callee.lilium_NewRouter,
          Callee.liliumjob_LoadLiliumJobsConfig]
      | none => [Callee.lilium_LoadConfig, Callee.lilium_New, Callee.lilium_NewRouter,
          Callee.liliumjob_LoadLiliumJobsConfig, Callee.liliumjob_New, Callee.RegisterTask,
          Callee.UseModule, Callee.Start] := by
  cases h : (E.LoadLiliumJobsConfig "test.yaml").2 with
  | some err => rw [main_of_failed E err h]; simp [prologue]
  | none => rw [main_of_loaded E h]; simp [prologue]

/-- C1: in every run of `main` in which `LoadLiliumJobsConfig("test.yaml")`
returns a nil error, the trace of external calls is exactly `LoadConfig`,
`lilium.New`, `NewRouter`, `LoadLiliumJobsConfig`, `liliumjob.New`,
`RegisterTask`, `UseModule`, `Start`, with the arguments of the source;
`RegisterTask` occurs exactly once, with the name "test-job" on the module built
from the loaded job configuration, and `Start` exactly once, with the router
built from `app.Context`. -/
theorem main_trace_when_config_loads {S : Sig} (E : Externals S)
    (h : (E.LoadLiliumJobsConfig "test.yaml").2 = none) :
    (main E).trace =
      [ ⟨Callee.lilium_LoadConfig, none, [Arg.str "test.yaml"]⟩,
        ⟨Callee.lilium_New, none,
          [Arg.config (E.LoadConfig "test.yaml"), Arg.goContext E.Background]⟩,
        ⟨Callee.lilium_NewRouter, none,
          [Arg.appContext (E.Context (E.New (E.LoadConfig "test.yaml") E.Background))]⟩,
        ⟨Callee.liliumjob_LoadLiliumJobsConfig, none, [Arg.str "test.yaml"]⟩,
        ⟨Callee.liliumjob_New, none, [Arg.jobsConfig (E.LoadLiliumJobsConfig "test.yaml").1]⟩,
        ⟨Callee.RegisterTask, some (Arg.module (E.JobNew (E.LoadLiliumJobsConfig "test.yaml").1)),
          [Arg.str "test-job", Arg.handler (testJob E)]⟩,
        ⟨Callee.UseModule, some (Arg.app (E.New (E.LoadConfig "test.yaml") E.Background)),
          [Arg.module (E.JobNew (E.LoadLiliumJobsConfig "test.yaml").1)]⟩,
        ⟨Callee.Start, some (Arg.app (E.New (E.LoadConfig "test.yaml") E.Background)),
          [Arg.router
            (E.NewRouter (E.Context (E.New (E.LoadConfig "test.yaml") E.Background)))]⟩ ] ∧
    ((main E).trace.filter (fun c => decide (c.callee = Callee.RegisterTask))).length = 1 ∧
    ((main E).trace.filter (fun c => decide (c.callee = Callee.Start))).length = 1 := by
  rw [main_of_loaded E h]
  simp [prologue]

/-- C1 at the externals `demoLoads`, whose job configuration loads. -/
theorem main_trace_when_config_loads_witness :
    ((main demoLoads).trace.filter (fun c => decide (c.callee = Callee.RegisterTask))).length = 1 ∧
    ((main demoLoads).trace.filter (fun c => decide (c.callee = Callee.Start))).length = 1 :=
  (main_trace_when_config_loads demoLoads rfl).2

/-- C2 as stated fails: under `demoLoads` the one `RegisterTask` call of `main`
does not have the argument list name, schedule trigger, handler. -/
theorem register_call_schedule_counterexample :
    ¬ (∀ c ∈ (main demoLoads).trace, c.callee = Callee.RegisterTask →
        ∃ (name : String) (t : ScheduleTrigger) (h : Handler demoSig),
          c.args = [Arg.str name, Arg.schedule t, Arg.handler h]) := by
  intro hall
  have hmem : (⟨Callee.RegisterTask, some (Arg.module (demoLoads.JobNew
      (demoLoads.LoadLiliumJobsConfig "test.yaml").1)),
      [Arg.str "test-job", Arg.handler (testJob demoLoads)]⟩ : Call demoSig) ∈
      (main demoLoads).trace := by
    rw [main_of_loaded demoLoads rfl]
    simp
  obtain ⟨name, t, h, hargs⟩ := hall _ hmem rfl
  simp at hargs

/-- The argument list of any `RegisterTask` call of `main`. -/
theorem args_of_register_call {S : Sig} (E : Externals S) (c : Call S)
    (hc : c ∈ (main E).trace) (hreg : c.callee = Callee.RegisterTask) :
    c.args = [Arg.str "test-job", Arg.handler (testJob E)] := by
  cases h : (E.LoadLiliumJobsConfig "test.yaml").2 with
  | some err =>
    rw [main_of_failed E err h] at hc
    simp only [prologue, List.mem_cons, List.mem_singleton, List.not_mem_nil, or_false] at hc
    rcases hc with rfl | rfl | rfl | rfl <;> simp at hreg
  | none =>
    rw [main_of_loaded E h] at hc
    simp only [prologue, List.cons_append, List.nil_append, List.mem_cons, List.mem_singleton,
      List.not_mem_nil, or_false] at hc
    rcases hc with rfl | rfl | rfl | rfl | rfl | rfl | rfl | rfl <;> simp at hreg ⊢

/-- C2, amended: every `RegisterTask` call of `main` supplies exactly two
arguments, the task name "test-job" and the handler, in that order, and no
schedule trigger. -/
theorem register_call_args {S : Sig} (E : Externals S) (c : Call S)
    (hc : c ∈ (main E).trace) (hreg : c.callee = Callee.RegisterTask) :
    c.args = [Arg.str "test-job", Arg.handler (testJob E)] ∧
    ∀ a ∈ c.args, ∀ t : ScheduleTrigger, a ≠ Arg.schedule t := by
  have hargs := args_of_register_call E c hc hreg
  refine ⟨hargs, ?_⟩
  rw [hargs]
  intro a ha t
  simp only [List.mem_cons, List.mem_singleton, List.not_mem_nil, or_false] at ha
  rcases ha with rfl | rfl <;> simp

/-- C2 amended, at the `RegisterTask` call of the run under `demoLoads`. -/
theorem register_call_args_witness :
    (⟨Callee.RegisterTask, some (Arg.module "module(jobs:test.yaml)"),
      [Arg.str "test-job", Arg.handler (testJob demoLoads)]⟩ : Call demoSig).args =
      [Arg.str "test-job", Arg.handler (testJob demoLoads)] ∧
    ∀ a ∈ (⟨Callee.RegisterTask, some (Arg.module "module(jobs:test.yaml)"),
      [Arg.str "test-job", Arg.handler (testJob demoLoads)]⟩ : Call demoSig).args,
      ∀ t : ScheduleTrigger, a ≠ Arg.schedule t :=
  register_call_args demoLoads
    ⟨Callee.RegisterTask, some (Arg.module "module(jobs:test.yaml)"),
      [Arg.str "test-job", Arg.handler (testJob demoLoads)]⟩
    (by rw [main_of_loaded demoLoads rfl]; simp [demoLoads]) rfl

/-- In a list of callees that is the four of the prologue, or those followed by
`liliumjob.New`, `RegisterTask`, `UseModule`, `Start`, a `RegisterTask` comes
before every `UseModule` and every `Start`. -/
theorem register_index_lt (l : List Callee)
    (hl : l = [Callee.lilium_LoadConfig, Callee.lilium_New, Callee.lilium_NewRouter,
          Callee.liliumjob_LoadLiliumJobsConfig] ∨
      l = [Callee.lilium_LoadConfig, Callee.lilium_New, Callee.lilium_NewRouter,
          Callee.liliumjob_LoadLiliumJobsConfig, Callee.liliumjob_New, Callee.RegisterTask,
          Callee.UseModule, Callee.Start])
    (i j : Nat) (hi : l[i]? = some Callee.RegisterTask)
    (hj : l[j]? = some Callee.UseModule ∨ l[j]? = some Callee.Start) : i < j := by
  rcases hl with rfl | rfl
  · rcases i with _ | _ | _ | _ | i <;> simp at hi
  · have hi5 : i = 5 := by
      rcases i with _ | _ | _ | _ | _ | _ | _ | _ | i <;> simp at hi ⊢
    have hj6 : 6 ≤ j := by
      rcases j with _ | _ | _ | _ | _ | _ | j <;> simp at hj ⊢
    omega

/-- C3: in every run of `main`, every `RegisterTask` call stands in the trace
before every `UseModule` call and every `Start` call, so no registration is
made after `UseModule` or `Start`; and when the job configuration loads, the
call `RegisterTask("test-job", ...)` is call 5 of the trace, `UseModule` call 6
and `Start` call 7. -/
theorem registration_precedes_start {S : Sig} (E : Externals S) :
    (∀ (i j : Nat) (ci cj : Call S),
      (main E).trace[i]? = some ci → (main E).trace[j]? = some cj →
      ci.callee = Callee.RegisterTask →
      (cj.callee = Callee.UseModule ∨ cj.callee = Callee.Start) → i < j) ∧
    ((E.LoadLiliumJobsConfig "test.yaml").2 = none →
      (∃ c, (main E).trace[5]? = some c ∧ c.callee = Callee.RegisterTask ∧
        c.args = [Arg.str "test-job", Arg.handler (testJob E)]) ∧
      (∃ c, (main E).trace[6]? = some c ∧ c.callee = Callee.UseModule) ∧
      (∃ c, (main E).trace[7]? = some c ∧ c.callee = Callee.Start)) := by
  constructor
  · intro i j ci cj hi hj hci hcj
    have hmap := callees_of_main E
    have hshape : (main E).trace.map (fun c => c.callee) =
          [Callee.lilium_LoadConfig, Callee.lilium_New, Callee.lilium_NewRouter,
            Callee.liliumjob_LoadLiliumJobsConfig] ∨
        (main E).trace.map (fun c => c.callee) =
          [Callee.lilium_LoadConfig, Callee.lilium_New, Callee.lilium_NewRouter,
            Callee.liliumjob_LoadLiliumJobsConfig, Callee.liliumjob_New, Callee.RegisterTask,
            Callee.UseModule, Callee.Start] := by
      cases h : (E.LoadLiliumJobsConfig "test.yaml").2 with
      | some err => left; rw [hmap, h]
      | none => right; rw [hmap, h]
    have hi2 : ((main E).trace.map (fun c => c.callee))[i]? = some Callee.RegisterTask := by
      rw [List.getElem?_map, hi]; simp [hci]
    have hj2 : ((main E).trace.map (fun c => c.callee))[j]? = some Callee.UseModule ∨
        ((main E).trace.map (fun c => c.callee))[j]? = some Callee.Start := by
      rw [List.getElem?_map, hj]
      rcases hcj with h | h
      · left; simp [h]
      · right; simp [h]
    exact register_index_lt _ hshape i j hi2 hj2
  · intro h
    rw [main_of_loaded E h]
    simp [prologue]

/-- C3 at the externals `demoLoads`: the registration is call 5, `UseModule`
call 6 and `Start` call 7. -/
theorem registration_precedes_start_witness :
    (∃ c, (main demoLoads).trace[5]? = some c ∧ c.callee = Callee.RegisterTask ∧
      c.args = [Arg.str "test-job", Arg.handler (testJob demoLoads)]) ∧
    (∃ c, (main demoLoads).trace[6]? = some c ∧ c.callee = Callee.UseModule) ∧
    (∃ c, (main demoLoads).trace[7]? = some c ∧ c.callee = Callee.Start) :=
  (registration_precedes_start demoLoads).2 rfl

/-- C4: for every application context whose `GetLogger()` yields a logger, the
handler registered under "test-job" returns nil and its whole list of calls is
the single `Info` call with the message "Hello from job" on that logger; the
run depends on nothing but the logger; and this handler is the one every
`RegisterTask` call of `main` passes, under the name "test-job". -/
theorem test_job_handler_trivial {S : Sig} (E : Externals S) (ctx : S.AppContext)
    (logger : S.Logger) (h : E.GetLogger ctx = some logger) :
    testJob E ctx =
      ⟨[HandlerCall.Info logger "Hello from job"], HandlerResult.returned none⟩ ∧
    (∀ (E2 : Externals S) (ctx2 : S.AppContext), E2.GetLogger ctx2 = some logger →
      testJob E2 ctx2 = testJob E ctx) ∧
    (∀ c ∈ (main E).trace, c.callee = Callee.RegisterTask →
      c.args = [Arg.str "test-job", Arg.handler (testJob E)]) := by
  refine ⟨?_, ?_, ?_⟩
  · simp only [testJob, h]
  · intro E2 ctx2 h2
    simp only [testJob, h, h2]
  · intro c hc hreg
    exact args_of_register_call E c hc hreg

/-- C4 at the externals `demoLoads` and the context "app.ctx", whose logger
is 7. -/
theorem test_job_handler_trivial_witness :
    testJob demoLoads "app.ctx" =
      ⟨[HandlerCall.Info (7 : Nat) "Hello from job"], HandlerResult.returned none⟩ :=
  (test_job_handler_trivial demoLoads "app.ctx" (7 : Nat) rfl).1

/-- C8: `main` panics if and only if `LoadLiliumJobsConfig("test.yaml")` returns
a non-nil error, and the panic value is that error; in that case the trace is
exactly `LoadConfig`, `lilium.New`, `NewRouter`, `LoadLiliumJobsConfig`, so
`liliumjob.New`, `RegisterTask`, `UseModule` and `Start` are never called. -/
theorem main_panics_iff_config_error {S : Sig} (E : Externals S) :
    ((∃ v, (main E).outcome = Outcome.panics v) ↔
      (E.LoadLiliumJobsConfig "test.yaml").2 ≠ none) ∧
    (∀ err, (E.LoadLiliumJobsConfig "test.yaml").2 = some err →
      (main E).outcome = Outcome.panics err ∧
      (main E).trace =
        [ ⟨Callee.lilium_LoadConfig, none, [Arg.str "test.yaml"]⟩,
          ⟨Callee.lilium_New, none,
            [Arg.config (E.LoadConfig "test.yaml"), Arg.goContext E.Background]⟩,
          ⟨Callee.lilium_NewRouter, none,
            [Arg.appContext (E.Context (E.New (E.LoadConfig "test.yaml") E.Background))]⟩,
          ⟨Callee.liliumjob_LoadLiliumJobsConfig, none, [Arg.str "test.yaml"]⟩ ] ∧
      ∀ c ∈ (main E).trace, c.callee ≠ Callee.liliumjob_New ∧
        c.callee ≠ Callee.RegisterTask ∧ c.callee ≠ Callee.UseModule ∧
        c.callee ≠ Callee.Start) := by
  constructor
  · cases h : (E.LoadLiliumJobsConfig "test.yaml").2 with
    | some err => rw [main_of_failed E err h]; simp
    | none => rw [main_of_loaded E h]; simp
  · intro err h
    rw [main_of_failed E err h]
    refine ⟨rfl, rfl, ?_⟩
    intro c hc
    simp only [prologue, List.mem_cons, List.mem_singleton, List.not_mem_nil, or_false] at hc
    rcases hc with rfl | rfl | rfl | rfl <;> simp

/-- C8 at the externals `demoFails`, whose job configuration fails to load
with "no such file": `main` panics with that value. -/
theorem main_panics_iff_config_error_witness :
    (main demoFails).outcome = Outcome.panics "no such file" :=
  ((main_panics_iff_config_error demoFails).2 "no such file" rfl).1

/-- C9: in every run that reaches the registration, the value returned by
`RegisterTask` is discarded: replacing that return value by any other leaves
the whole run unchanged, the trace ends with the `RegisterTask` call followed
by `UseModule(module)` and `Start(router)`, and the body runs to its end. -/
theorem registration_result_discarded {S : Sig} (E : Externals S)
    (h : (E.LoadLiliumJobsConfig "test.yaml").2 = none)
    (f : S.Module → String → Handler S → Option S.Error) :
    main { E with RegisterTask := f } = main E ∧
    (main E).outcome = Outcome.completed ∧
    (main E).trace.drop 5 =
      [ ⟨Callee.RegisterTask, some (Arg.module (E.JobNew (E.LoadLiliumJobsConfig "test.yaml").1)),
          [Arg.str "test-job", Arg.handler (testJob E)]⟩,
        ⟨Callee.UseModule, some (Arg.app (E.New (E.LoadConfig "test.yaml") E.Background)),
          [Arg.module (E.JobNew (E.LoadLiliumJobsConfig "test.yaml").1)]⟩,
        ⟨Callee.Start, some (Arg.app (E.New (E.LoadConfig "test.yaml") E.Background)),
          [Arg.router
            (E.NewRouter (E.Context (E.New (E.LoadConfig "test.yaml") E.Background)))]⟩ ] := by
  refine ⟨?_, ?_, ?_⟩
  · rw [main_of_loaded E h, main_of_loaded { E with RegisterTask := f } h]
    rfl
  · rw [main_of_loaded E h]
  · rw [main_of_loaded E h]
    simp [prologue]

/-- C9 at the externals `demoLoads`, whose `RegisterTask` returns an error:
the run is the one obtained when `RegisterTask` returns nil. -/
theorem registration_result_discarded_witness :
    main { demoLoads with RegisterTask := fun _ _ _ => none } = main demoLoads ∧
    (main demoLoads).outcome = Outcome.completed :=
  ⟨(registration_result_discarded demoLoads rfl (fun _ _ _ => none)).1,
    (registration_result_discarded demoLoads rfl (fun _ _ _ => none)).2.1⟩

end LiliumJob

/-!
Theorems about the scheduling core
-/

namespace LiliumJob.Core

/-- A registration never closes the registry. -/
theorem Register_closed (r : Registry) (name : String) (schedule : ScheduleTrigger)
    (handler : JobHandler) : (Register r name schedule handler).1.closed = r.closed := by
  unfold Register
  split
  · rfl
  · split <;> rfl

/-- A sequence of registrations never closes the registry. -/
theorem registerAll_closed (reqs : List TaskDefinition) (r : Registry) :
    (registerAll r reqs).closed = r.closed := by
  induction reqs generalizing r with
  | nil => rfl
  | cons d rest ih => simp only [registerAll]; rw [ih, Register_closed]

/-- Registration under a name that is present, on an open registry. -/
theorem Register_present (r : Registry) (name : String) (schedule : ScheduleTrigger)
    (handler : JobHandler) (hopen : r.closed = false) (d : TaskDefinition)
    (hd : Lookup r name = some d) :
    Register r name schedule handler = (r, Except.error RegistryError.DuplicateTask) := by
  simp [Register, hopen, hd]

/-- Registration under a name that is absent, on an open registry. -/
theorem Register_absent (r : Registry) (name : String) (schedule : ScheduleTrigger)
    (handler : JobHandler) (hopen : r.closed = false) (hd : Lookup r name = none) :
    Register r name schedule handler =
      ({ r with tasks := r.tasks ++ [⟨name, schedule, handler⟩] }, Except.ok ()) := by
  simp [Register, hopen, hd]

/-- Lookup after appending one definition. -/
theorem Lookup_append (r : Registry) (d : TaskDefinition) (name : String) :
    Lookup { r with tasks := r.tasks ++ [d] } name =
      (Lookup r name).orElse (fun _ => if d.name = name then some d else none) := by
  simp only [Lookup, List.find?_append, List.find?_cons, List.find?_nil]
  cases r.tasks.find? (fun d => d.name == name) with
  | some x => simp
  | none =>
    by_cases h : d.name = name
    · simp [h]
    · have hb : (d.name == name) = false := by simpa using h
      simp [h, hb]

/-- After a sequence of registrations on an open registry, a name resolves to
what it resolved to before, or else to the first request made under it. -/
theorem Lookup_registerAll (reqs : List TaskDefinition) (r : Registry)
    (hopen : r.closed = false) (name : String) :
    Lookup (registerAll r reqs) name =
      (Lookup r name).orElse (fun _ => reqs.find? (fun d => d.name == name)) := by
  induction reqs generalizing r with
  | nil => cases h : Lookup r name <;> simp [registerAll, h]
  | cons d rest ih =>
    simp only [registerAll]
    rw [ih _ (by rw [Register_closed]; exact hopen)]
    cases hd : Lookup r d.name with
    | some x =>
      rw [Register_present r d.name d.schedule d.handler hopen x hd]
      by_cases hn : d.name = name
      · subst hn; simp [hd]
      · simp [List.find?_cons, hn]
    | none =>
      rw [Register_absent r d.name d.schedule d.handler hopen hd]
      simp only []
      rw [Lookup_append]
      by_cases hn : d.name = name
      · subst hn; simp [hd, List.find?_cons]
      · cases Lookup r name <;> simp [List.find?_cons, hn]

/-- A sequence of registrations keeps the task names of the registry
distinct. -/
theorem registerAll_names_nodup (reqs : List TaskDefinition) (r : Registry)
    (hopen : r.closed = false) (h : (r.tasks.map (fun d => d.name)).Nodup) :
    ((registerAll r reqs).tasks.map (fun d => d.name)).Nodup := by
  induction reqs generalizing r with
  | nil => exact h
  | cons d rest ih =>
    simp only [registerAll]
    apply ih _ (by rw [Register_closed]; exact hopen)
    cases hd : Lookup r d.name with
    | some x =>
      rw [Register_present r d.name d.schedule d.handler hopen x hd]
      exact h
    | none =>
      rw [Register_absent r d.name d.schedule d.handler hopen hd]
      simp only [List.map_append, List.map_cons, List.map_nil]
      rw [List.nodup_append]
      refine ⟨h, List.nodup_singleton _, ?_⟩
      intro a ha hb
      rw [List.mem_singleton] at hb
      subst hb
      obtain ⟨x, hx, hxn⟩ := List.mem_map.1 ha
      have hnone := List.find?_eq_none.1 hd x hx
      simp [hxn] at hnone

/-- C5: after any sequence of registrations on the registry constructed empty,
a registration under a name already present fails with DuplicateTask and
returns the registry unchanged, so the first definition stays; a registration
under a name not yet present returns success and stores the definition,
leaving every other name as it was; and the definition a name resolves to is
the first one requested under it. -/
theorem register_duplicate_fails_fresh_succeeds (reqs : List TaskDefinition) (name : String)
    (schedule : ScheduleTrigger) (handler : JobHandler) :
    (∀ d, Lookup (registerAll Registry.empty reqs) name = some d →
      Register (registerAll Registry.empty reqs) name schedule handler =
        (registerAll Registry.empty reqs, Except.error RegistryError.DuplicateTask) ∧
      Lookup (Register (registerAll Registry.empty reqs) name schedule handler).1 name =
        some d) ∧
    (Lookup (registerAll Registry.empty reqs) name = none →
      (Register (registerAll Registry.empty reqs) name schedule handler).2 = Except.ok () ∧
      Lookup (Register (registerAll Registry.empty reqs) name schedule handler).1 name =
        some ⟨name, schedule, handler⟩ ∧
      ∀ other, other ≠ name →
        Lookup (Register (registerAll Registry.empty reqs) name schedule handler).1 other =
          Lookup (registerAll Registry.empty reqs) other) ∧
    Lookup (registerAll Registry.empty reqs) name =
      reqs.find? (fun d => d.name == name) := by
  have hopen : (registerAll Registry.empty reqs).closed = false := by
    rw [registerAll_closed]; rfl
  refine ⟨?_, ?_, ?_⟩
  · intro d hd
    rw [Register_present _ name schedule handler hopen d hd]
    exact ⟨rfl, hd⟩
  · intro hd
    rw [Register_absent _ name schedule handler hopen hd]
    refine ⟨rfl, ?_, ?_⟩
    · simp only []
      rw [Lookup_append, hd]
      simp
    · intro other hne
      simp only []
      rw [Lookup_append]
      cases Lookup (registerAll Registry.empty reqs) other <;> simp [Ne.symm hne]
  · rw [Lookup_registerAll reqs Registry.empty rfl name]
    simp [Lookup, Registry.empty]

/-- C5 on the requests `demoRequests`, which ask for "report" twice: a third
registration of "report" fails with DuplicateTask, and "report" still resolves
to the first request. -/
theorem register_duplicate_fails_fresh_succeeds_witness :
    (Register (registerAll Registry.empty demoRequests) "report" ScheduleTrigger.Immediate
      (fun _ => ⟨0, HandlerEnd.ok⟩)).2 = Except.error RegistryError.DuplicateTask ∧
    Lookup (registerAll Registry.empty demoRequests) "report" =
      some ⟨"report", ScheduleTrigger.Immediate, fun _ => ⟨1, HandlerEnd.ok⟩⟩ :=
  ⟨congrArg Prod.snd ((register_duplicate_fails_fresh_succeeds demoRequests "report"
      ScheduleTrigger.Immediate (fun _ => ⟨0, HandlerEnd.ok⟩)).1
      ⟨"report", ScheduleTrigger.Immediate, fun _ => ⟨1, HandlerEnd.ok⟩⟩ rfl).1,
    (register_duplicate_fails_fresh_succeeds demoRequests "report"
      ScheduleTrigger.Immediate (fun _ => ⟨0, HandlerEnd.ok⟩)).2.2⟩

/-- One tick of a running scheduler, written out. -/
theorem tick_running (s : Scheduler) (h : s.phase = Phase.Running) :
    tick s =
      { s with
        now := s.now + 1
        table := s.table.map (advance s.cronNext (s.now + 1))
        inflight := s.inflight.filter (fun i => !decide (i.finishTime ≤ s.now + 1)) ++
          dispatch (s.now + 1) (s.inflight.filter (fun i => !decide (i.finishTime ≤ s.now + 1)))
            s.table
        log := evict s.capacity
          (s.log.map (settle (s.inflight.filter (fun i => decide (i.finishTime ≤ s.now + 1)))) ++
            (dispatch (s.now + 1)
              (s.inflight.filter (fun i => !decide (i.finishTime ≤ s.now + 1)))
              s.table).map created) } := by
  unfold tick
  rw [h]

/-- A tick leaves the phase as it is. -/
theorem tick_phase (s : Scheduler) : (tick s).phase = s.phase := by
  unfold tick
  split <;> rfl

/-- A tick leaves the cron evaluator as it is. -/
theorem tick_cronNext (s : Scheduler) : (tick s).cronNext = s.cronNext := by
  unfold tick
  split <;> rfl

/-- Recomputing a row keeps its task. -/
theorem advance_task (c : String → Nat → Option Nat) (now : Nat) (sl : Slot) :
    (advance c now sl).task = sl.task := by
  unfold advance
  split <;> rfl

/-- A tick keeps the task names of the table, in order. -/
theorem tick_table_names (s : Scheduler) :
    (tick s).table.map (fun sl => sl.task.name) = s.table.map (fun sl => sl.task.name) := by
  unfold tick
  split
  · simp [List.map_map, Function.comp_def, advance_task]
  · rfl

/-- The names of the invocations a tick dispatches are names of the table that
are not executing. -/
theorem dispatch_names (now : Nat) (running : List Invocation) (table : List Slot) :
    (dispatch now running table).map (fun i => i.taskName) =
      (table.filter (fun sl => isDue now sl && !executing running sl.task.name)).map
        (fun sl => sl.task.name) := by
  simp [dispatch, List.map_map, Function.comp_def, Invoke]

/-- A name is executing exactly when an invocation in flight carries it. -/
theorem executing_iff (running : List Invocation) (name : String) :
    executing running name = true ↔ name ∈ running.map (fun i => i.taskName) := by
  simp only [executing, List.any_eq_true, List.mem_map, beq_iff_eq]

/-- One tick keeps the invocations in flight to at most one for each task
name, provided the task names of the table are distinct. -/
theorem tick_inflight_nodup (s : Scheduler)
    (hnames : (s.table.map (fun sl => sl.task.name)).Nodup)
    (hinfl : (s.inflight.map (fun i => i.taskName)).Nodup) :
    ((tick s).inflight.map (fun i => i.taskName)).Nodup := by
  unfold tick
  split
  · simp only [List.map_append]
    rw [List.nodup_append]
    refine ⟨?_, ?_, ?_⟩
    · exact hinfl.sublist ((List.filter_sublist _).map _)
    · rw [dispatch_names]
      exact hnames.sublist ((List.filter_sublist _).map _)
    · intro a ha hb
      rw [dispatch_names] at hb
      obtain ⟨sl, hsl, rfl⟩ := List.mem_map.1 hb
      have hcond := (List.mem_filter.1 hsl).2
      have hex := (executing_iff _ _).2 ha
      simp [hex] at hcond
  · exact hinfl

/-- Any number of ticks keeps the invocations in flight to at most one for each
task name. -/
theorem ticks_inflight_nodup (n : Nat) (s : Scheduler)
    (hnames : (s.table.map (fun sl => sl.task.name)).Nodup)
    (hinfl : (s.inflight.map (fun i => i.taskName)).Nodup) :
    ((ticks n s).table.map (fun sl => sl.task.name)).Nodup ∧
    ((ticks n s).inflight.map (fun i => i.taskName)).Nodup := by
  induction n generalizing s with
  | zero => exact ⟨hnames, hinfl⟩
  | succ n ih =>
    simp only [ticks]
    exact ih (tick s) (by rw [tick_table_names]; exact hnames)
      (tick_inflight_nodup s hnames hinfl)

/-- In a list with distinct task names, the invocations of one name are at
most one. -/
theorem filter_length_le_one (l : List Invocation)
    (h : (l.map (fun i => i.taskName)).Nodup) (name : String) :
    (l.filter (fun i => i.taskName == name)).length ≤ 1 := by
  have hc := List.nodup_iff_count_le_one.1 h name
  rw [List.count_eq_countP, List.countP_map, List.countP_eq_length_filter] at hc
  have heq : l.filter ((fun x => x == name) ∘ fun i => i.taskName) =
      l.filter (fun i => i.taskName == name) := rfl
  rw [heq] at hc
  exact hc

/-- In a list with distinct task names, the invocations carrying the name of a
member are that member alone. -/
theorem filter_eq_singleton (l : List Invocation)
    (h : (l.map (fun i => i.taskName)).Nodup) (i : Invocation) (hi : i ∈ l) :
    l.filter (fun j => j.taskName == i.taskName) = [i] := by
  induction l with
  | nil => simp at hi
  | cons x rest ih =>
    simp only [List.map_cons, List.nodup_cons] at h
    rcases List.mem_cons.1 hi with rfl | hmem
    · have hnone : rest.filter (fun j => j.taskName == i.taskName) = [] := by
        rw [List.filter_eq_nil_iff]
        intro j hj hjn
        exact h.1 (List.mem_map.2 ⟨j, hj, by simpa using hjn⟩)
      simp [List.filter_cons, hnone]
    · have hx : (x.taskName == i.taskName) = false := by
        rw [beq_eq_false_iff_ne]
        intro hxe
        exact h.1 (List.mem_map.2 ⟨i, hmem, hxe.symm⟩)
      simp only [List.filter_cons, hx]
      exact ih h.2 hmem

/-- The row a tick leaves for a task name is the recomputed row it had. -/
theorem tick_find (s : Scheduler) (h : s.phase = Phase.Running) (name : String) :
    (tick s).table.find? (fun sl => sl.task.name == name) =
      (s.table.find? (fun sl => sl.task.name == name)).map
        (advance s.cronNext (s.now + 1)) := by
  rw [tick_running s h]
  simp only [List.find?_map]
  have hcomp : ((fun sl : Slot => sl.task.name == name) ∘ advance s.cronNext (s.now + 1)) =
      (fun sl : Slot => sl.task.name == name) := by
    funext sl
    simp [Function.comp, advance_task]
  rw [hcomp]

/-- In a table with distinct task names, a row is the one found under its
name. -/
theorem find_of_mem (table : List Slot)
    (hnames : (table.map (fun sl => sl.task.name)).Nodup) (sl : Slot) (hsl : sl ∈ table) :
    table.find? (fun x => x.task.name == sl.task.name) = some sl := by
  induction table with
  | nil => simp at hsl
  | cons x rest ih =>
    simp only [List.map_cons, List.nodup_cons] at hnames
    rcases List.mem_cons.1 hsl with rfl | hmem
    · simp [List.find?_cons]
    · have hx : (x.task.name == sl.task.name) = false := by
        rw [beq_eq_false_iff_ne]
        intro hxe
        exact hnames.1 (List.mem_map.2 ⟨sl, hmem, hxe.symm⟩)
      simp only [List.find?_cons, hx]
      exact ih hnames.2 hmem

/-- Every invocation a tick dispatches is the invocation, at the time of the
tick, of a due task of the table that is not executing. -/
theorem mem_dispatch (now : Nat) (running : List Invocation) (table : List Slot)
    (i : Invocation) (hi : i ∈ dispatch now running table) :
    ∃ sl ∈ table, isDue now sl = true ∧ executing running sl.task.name = false ∧
      i = Invoke sl.task now := by
  simp only [dispatch, List.mem_map, List.mem_filter, Bool.and_eq_true,
    Bool.not_eq_true'] at hi
  obtain ⟨sl, ⟨hsl, hdue, hex⟩, rfl⟩ := hi
  exact ⟨sl, hsl, hdue, hex, rfl⟩

/-- A task still executing when its fire time arrives is not dispatched again:
after the tick its one invocation in flight is the one that was running. -/
theorem tick_missed (s : Scheduler) (hrun : s.phase = Phase.Running)
    (hinfl : (s.inflight.map (fun i => i.taskName)).Nodup)
    (i : Invocation) (hi : i ∈ s.inflight) (hbusy : s.now + 1 < i.finishTime) :
    (tick s).inflight.filter (fun j => j.taskName == i.taskName) = [i] := by
  rw [tick_running s hrun]
  simp only [List.filter_append]
  have hrunning : i ∈ s.inflight.filter (fun j => !decide (j.finishTime ≤ s.now + 1)) := by
    rw [List.mem_filter]
    refine ⟨hi, ?_⟩
    simp only [Bool.not_eq_true', decide_eq_false_iff_not, not_le]
    exact hbusy
  have hnodup : ((s.inflight.filter (fun j => !decide (j.finishTime ≤ s.now + 1))).map
      (fun i => i.taskName)).Nodup := hinfl.sublist ((List.filter_sublist _).map _)
  rw [filter_eq_singleton _ hnodup i hrunning]
  have hnone : (dispatch (s.now + 1)
      (s.inflight.filter (fun j => !decide (j.finishTime ≤ s.now + 1))) s.table).filter
      (fun j => j.taskName == i.taskName) = [] := by
    rw [List.filter_eq_nil_iff]
    intro j hj hjn
    obtain ⟨sl, _, _, hex, rfl⟩ := mem_dispatch _ _ _ j hj
    have hname : sl.task.name = i.taskName := by simpa [Invoke] using hjn
    have : executing (s.inflight.filter (fun j => !decide (j.finishTime ≤ s.now + 1)))
        sl.task.name = true := by
      rw [executing_iff, hname]
      exact List.mem_map.2 ⟨i, hrunning, rfl⟩
    rw [this] at hex
    exact Bool.noConfusion hex
  rw [hnone]
  rfl

/-- The next fire time of an Interval task stays on the grid of its first fire
time: after any number of ticks it is that time plus a multiple of the period,
and still ahead of the clock. -/
theorem ticks_grid (n : Nat) (s : Scheduler) (name : String) (period : Nat)
    (hp : 0 < period) (t0 : Nat) (sl : Slot) (hrun : s.phase = Phase.Running)
    (hfind : s.table.find? (fun x => x.task.name == name) = some sl)
    (hsched : sl.task.schedule = ScheduleTrigger.Interval period hp)
    (hfire : sl.nextFire = some t0) (hfresh : s.now < t0) :
    ∃ (k : Nat) (sl2 : Slot),
      (ticks n s).table.find? (fun x => x.task.name == name) = some sl2 ∧
      sl2.task = sl.task ∧ sl2.nextFire = some (t0 + k * period) ∧
      (ticks n s).now < t0 + k * period := by
  induction n generalizing s sl t0 with
  | zero => exact ⟨0, sl, hfind, rfl, by simpa using hfire, by simpa using hfresh⟩
  | succ n ih =>
    simp only [ticks]
    have hrun2 : (tick s).phase = Phase.Running := by rw [tick_phase, hrun]
    have hfind2 := tick_find s hrun name
    rw [hfind] at hfind2
    simp only [Option.map_some'] at hfind2
    have hnow : (tick s).now = s.now + 1 := by rw [tick_running s hrun]
    by_cases hdue : t0 ≤ s.now + 1
    · have hadv : (advance s.cronNext (s.now + 1) sl).nextFire = some (t0 + period) := by
        have : isDue (s.now + 1) sl = true := by simp [isDue, hfire, hdue]
        simp only [advance, this, if_true, hsched, recompute]
        congr 1
        omega
      obtain ⟨k, sl2, h1, h2, h3, h4⟩ := ih (tick s) (t0 + period)
        (advance s.cronNext (s.now + 1) sl) hrun2 hfind2
        (by rw [advance_task]; exact hsched) hadv (by rw [hnow]; omega)
      refine ⟨k + 1, sl2, h1, by rw [h2, advance_task], ?_, ?_⟩
      · rw [h3]; congr 1; rw [Nat.add_mul]; omega
      · rw [Nat.add_mul]; omega
    · have hadv : advance s.cronNext (s.now + 1) sl = sl := by
        have : isDue (s.now + 1) sl = false := by simp [isDue, hfire, hdue]
        simp [advance, this]
      rw [hadv] at hfind2
      exact ih (tick s) t0 sl hrun2 hfind2 hsched hfire (by rw [hnow]; omega)

/-- Every invocation of an Interval task starts on the grid of its first fire
time: an invocation in flight after any number of ticks was in flight at the
start or started at that time plus a multiple of the period. -/
theorem ticks_start_on_grid (n : Nat) (s : Scheduler) (name : String) (period : Nat)
    (hp : 0 < period) (t0 : Nat) (sl : Slot) (hrun : s.phase = Phase.Running)
    (hnames : (s.table.map (fun sl => sl.task.name)).Nodup)
    (hfind : s.table.find? (fun x => x.task.name == name) = some sl)
    (hsched : sl.task.schedule = ScheduleTrigger.Interval period hp)
    (hfire : sl.nextFire = some t0) (hfresh : s.now < t0)
    (i : Invocation) (hi : i ∈ (ticks n s).inflight) (hname : i.taskName = name) :
    i ∈ s.inflight ∨ ∃ k : Nat, i.startTime = t0 + k * period := by
  induction n generalizing s sl t0 with
  | zero => exact Or.inl hi
  | succ n ih =>
    simp only [ticks] at hi
    have hrun2 : (tick s).phase = Phase.Running := by rw [tick_phase, hrun]
    have hnames2 : ((tick s).table.map (fun sl => sl.task.name)).Nodup := by
      rw [tick_table_names]; exact hnames
    have hfind2 := tick_find s hrun name
    rw [hfind] at hfind2
    simp only [Option.map_some'] at hfind2
    have hnow : (tick s).now = s.now + 1 := by rw [tick_running s hrun]
    -- an invocation in flight after the first tick was running before or starts now
    have hfirst : ∀ j ∈ (tick s).inflight, j.taskName = name →
        j ∈ s.inflight ∨ (j.startTime = s.now + 1 ∧ t0 = s.now + 1) := by
      intro j hj hjn
      rw [tick_running s hrun] at hj
      simp only [List.mem_append] at hj
      rcases hj with hj | hj
      · exact Or.inl (List.mem_filter.1 hj).1
      · obtain ⟨sl2, hsl2, hdue2, _, rfl⟩ := mem_dispatch _ _ _ j hj
        have hn2 : sl2.task.name = name := by simpa [Invoke] using hjn
        have hfound := find_of_mem s.table hnames sl2 hsl2
        rw [hn2, hfind] at hfound
        have hsame : sl = sl2 := Option.some.inj hfound
        subst hsame
        have : t0 ≤ s.now + 1 := by simpa [isDue, hfire] using hdue2
        exact Or.inr ⟨rfl, by omega⟩
    by_cases hdue : t0 ≤ s.now + 1
    · have hadv : (advance s.cronNext (s.now + 1) sl).nextFire = some (t0 + period) := by
        have : isDue (s.now + 1) sl = true := by simp [isDue, hfire, hdue]
        simp only [advance, this, if_true, hsched, recompute]
        congr 1
        omega
      rcases ih (tick s) (t0 + period) (advance s.cronNext (s.now + 1) sl) hrun2 hnames2
        hfind2 (by rw [advance_task]; exact hsched) hadv (by rw [hnow]; omega) hi with h | ⟨k, hk⟩
      · rcases hfirst i h hname with h | ⟨h, _⟩
        · exact Or.inl h
        · exact Or.inr ⟨0, by omega⟩
      · exact Or.inr ⟨k + 1, by rw [hk, Nat.add_mul]; omega⟩
    · have hadv : advance s.cronNext (s.now + 1) sl = sl := by
        have : isDue (s.now + 1) sl = false := by simp [isDue, hfire, hdue]
        simp [advance, this]
      rw [hadv] at hfind2
      rcases ih (tick s) t0 sl hrun2 hnames2 hfind2 hsched hfire (by rw [hnow]; omega) hi
        with h | h
      · rcases hfirst i h hname with h | ⟨_, h⟩
        · exact Or.inl h
        · omega
      · exact Or.inr h

/-- A record is the record of an invocation when it has its name and start
time. -/
theorem sameInvocation_iff (r : ExecutionRecord) (i : Invocation) :
    sameInvocation r i = true ↔ r.taskName = i.taskName ∧ r.startTime = i.startTime := by
  simp [sameInvocation]

/-- A log with at most one record for a task name and start time holds at most
one record for an invocation. -/
theorem countP_same_le_one (log : List ExecutionRecord)
    (hkeys : (log.map (fun r => (r.taskName, r.startTime))).Nodup) (i : Invocation) :
    log.countP (fun r => sameInvocation r i) ≤ 1 := by
  induction log with
  | nil => simp
  | cons r rest ih =>
    simp only [List.map_cons, List.nodup_cons] at hkeys
    by_cases hsame : sameInvocation r i = true
    · have hzero : rest.countP (fun r => sameInvocation r i) = 0 := by
        rw [List.countP_eq_zero]
        intro r2 h2 hs2
        apply hkeys.1
        rw [sameInvocation_iff] at hsame hs2
        exact List.mem_map.2 ⟨r2, h2, by rw [hs2.1, hs2.2, hsame.1, hsame.2]⟩
      rw [List.countP_cons, hzero]
      simp [hsame]
    · rw [List.countP_cons]
      have := ih hkeys.2
      simp only [hsame, Bool.false_eq_true, if_false]
      omega

/-- A record counted once: a log with at most one record for an invocation
that holds one holds exactly one. -/
theorem countP_same_eq_one (log : List ExecutionRecord)
    (hkeys : (log.map (fun r => (r.taskName, r.startTime))).Nodup) (i : Invocation)
    (r : ExecutionRecord) (hr : r ∈ log) (hsame : sameInvocation r i = true) :
    log.countP (fun r => sameInvocation r i) = 1 := by
  have hle := countP_same_le_one log hkeys i
  have hpos : 0 < log.countP (fun r => sameInvocation r i) :=
    List.countP_pos_iff.2 ⟨r, hr, hsame⟩
  omega

/-- The state `readyScheduler` is `demoScheduler` after one tick, and
`busyScheduler` is `demoScheduler` after nine ticks. -/
theorem demo_states_reached :
    ticks 1 demoScheduler = readyScheduler ∧ ticks 9 demoScheduler = busyScheduler :=
  ⟨rfl, rfl⟩

/-- The run of `demoScheduler`: the invocation of "slow" started at 5 runs until
12, its tick at 10 is dropped, and the next invocation starts at 15; after 16
ticks the log holds one finalized record for each finished invocation of
"slow". -/
theorem demo_run :
    (ticks 10 demoScheduler).inflight =
      [⟨"slow", 5, 12, ExecOutcome.Success⟩, ⟨"boom", 10, 11, ExecOutcome.Panicked "nil map"⟩] ∧
    (ticks 15 demoScheduler).inflight = [⟨"slow", 15, 16, ExecOutcome.Success⟩] ∧
    ((ticks 16 demoScheduler).log.filter (fun r => r.taskName == "slow")) =
      [⟨"slow", 5, some 12, some ExecOutcome.Success⟩,
        ⟨"slow", 15, some 16, some ExecOutcome.Success⟩] :=
  ⟨rfl, rfl, rfl⟩

/-- The run of `tightStart`, whose log keeps one record: the record created for
the faulting invocation of "boom" at time 1 is evicted at time 2 by the record
of "quick", and when the invocation completes at time 4 the log holds no record
with outcome Panicked. -/
theorem tight_run :
    (ticks 1 tightStart).inflight = [⟨"boom", 1, 4, ExecOutcome.Panicked "nil map"⟩] ∧
    (ticks 1 tightStart).log = [⟨"boom", 1, none, none⟩] ∧
    (ticks 2 tightStart).log = [⟨"quick", 2, none, none⟩] ∧
    (ticks 4 tightStart).inflight = [] ∧
    (ticks 4 tightStart).log = [⟨"quick", 2, some 3, some ExecOutcome.Success⟩] :=
  ⟨rfl, rfl, rfl, rfl, rfl⟩

/-- C7: in a running scheduler whose table has distinct task names and which
has at most one invocation in flight for each task, after any number of ticks
at most one invocation of each task is in flight; a task that is due while its
invocation is still executing is not dispatched again, the invocation in
flight stays the only one, and its next fire time is recomputed from its
schedule at the time of the tick, whatever the finish time; and for an
Interval task the next fire time and the start time of every later invocation
are the first fire time plus a multiple of the period. -/
theorem at_most_one_invocation_per_task (s : Scheduler) (hrun : s.phase = Phase.Running)
    (hnames : (s.table.map (fun sl => sl.task.name)).Nodup)
    (hinfl : (s.inflight.map (fun i => i.taskName)).Nodup) :
    (∀ (n : Nat) (name : String),
      ((ticks n s).inflight.filter (fun i => i.taskName == name)).length ≤ 1) ∧
    (∀ sl ∈ s.table, ∀ i ∈ s.inflight, i.taskName = sl.task.name →
      isDue (s.now + 1) sl = true → s.now + 1 < i.finishTime →
      (tick s).inflight.filter (fun j => j.taskName == sl.task.name) = [i] ∧
      nextFireOf (tick s) sl.task.name = recompute s.cronNext (s.now + 1) sl.task.schedule) ∧
    (∀ sl ∈ s.table, ∀ (period : Nat) (hp : 0 < period) (t0 : Nat),
      sl.task.schedule = ScheduleTrigger.Interval period hp → sl.nextFire = some t0 →
      s.now < t0 → ∀ n : Nat,
        (∃ k : Nat, nextFireOf (ticks n s) sl.task.name = some (t0 + k * period) ∧
          (ticks n s).now < t0 + k * period) ∧
        (∀ i ∈ (ticks n s).inflight, i.taskName = sl.task.name →
          i ∈ s.inflight ∨ ∃ k : Nat, i.startTime = t0 + k * period)) := by
  refine ⟨?_, ?_, ?_⟩
  · intro n name
    exact filter_length_le_one _ (ticks_inflight_nodup n s hnames hinfl).2 name
  · intro sl hsl i hi hname hdue hbusy
    constructor
    · rw [← hname]
      exact tick_missed s hrun hinfl i hi hbusy
    · unfold nextFireOf
      rw [tick_find s hrun, find_of_mem s.table hnames sl hsl]
      simp [advance, hdue]
  · intro sl hsl period hp t0 hsched hfire hfresh n
    have hfind := find_of_mem s.table hnames sl hsl
    constructor
    · obtain ⟨k, sl2, h1, _, h3, h4⟩ :=
        ticks_grid n s sl.task.name period hp t0 sl hrun hfind hsched hfire hfresh
      refine ⟨k, ?_, h4⟩
      unfold nextFireOf
      rw [h1]
      exact h3
    · intro i hi hname
      exact ticks_start_on_grid n s sl.task.name period hp t0 sl hrun hnames hfind hsched
        hfire hfresh i hi hname

/-- C7 on the Interval(5) task "slow" whose invocation started at 5 runs 7
ticks: from `demoScheduler` at most one invocation of it is in flight after 10
ticks; in `busyScheduler`, at time 9 with that invocation running until 12, the
tick at time 10 does not dispatch it again and sets its next fire time to 15;
and from `demoScheduler` its next fire time after 12 ticks is 5 plus a multiple
of 5. -/
theorem at_most_one_invocation_per_task_witness :
    ((ticks 10 demoScheduler).inflight.filter (fun i => i.taskName == "slow")).length ≤ 1 ∧
    ((tick busyScheduler).inflight.filter (fun j => j.taskName == "slow") =
        [⟨"slow", 5, 12, ExecOutcome.Success⟩] ∧
      nextFireOf (tick busyScheduler) "slow" = some 15) ∧
    (∃ k : Nat, nextFireOf (ticks 12 demoScheduler) "slow" = some (5 + k * 5) ∧
      (ticks 12 demoScheduler).now < 5 + k * 5) :=
  ⟨(at_most_one_invocation_per_task demoScheduler rfl (by decide) (by decide)).1 10 "slow",
    (at_most_one_invocation_per_task busyScheduler rfl (by decide) (by decide)).2.1
      ⟨slowTask, some 10⟩ (by simp [busyScheduler])
      ⟨"slow", 5, 12, ExecOutcome.Success⟩ (by simp [busyScheduler]) rfl rfl (by decide),
    ((at_most_one_invocation_per_task demoScheduler rfl (by decide) (by decide)).2.2
      ⟨slowTask, some 5⟩ (by simp [demoScheduler]) 5 (by decide) 5 rfl rfl (by decide) 12).1⟩

end LiliumJob.Core
